import Mathlib

/-!
Verification of the charm-reading library (format detection, manifest parsing,
series reconciliation, resource metadata, archive reading) against its
natural-language specification.  The Go source is shallowly embedded: Go slices
that distinguish nil from empty are `Option (List _)`, Go errors are explicit
`Except`/`Option` results, and a nil-pointer dereference is an explicit `fault`
outcome.  External collaborators (YAML decoding, the juju/schema combinators'
contract, the juju/systems base type) are modelled from their documented
contracts where noted.
-/

/-- A Go error value; only its message is observable to the claims. -/
structure GoError where
  msg : String
deriving DecidableEq, Repr

/-- Models juju/errors.Annotatef applied to a non-nil error: the message is
prefixed with the annotation.  (Annotatef of a nil error returns nil; call
sites model that case directly.) -/
def annotate (context : String) (e : GoError) : GoError :=
  ⟨context ++ ": " ++ e.msg⟩

/-- Models the noCharmArchiveFile error of charmarchive.go (the distinguishable
not-found condition for one archive entry). -/
def noCharmArchiveFile (path : String) : GoError :=
  ⟨"archive file \"" ++ path ++ "\" not found"⟩

/-- A generic decoded YAML value (the result of decoding one document into a
generic key/value tree, as the source's map[string]interface{} trees). -/
inductive Yaml where
  | str (s : String)
  | int (n : Int)
  | bool (b : Bool)
  | list (xs : List Yaml)
  | map (kvs : List (String × Yaml))

/-- Go map indexing for a decoded YAML mapping: the value under the key, if the
key is present. -/
def yamlLookup (kvs : List (String × Yaml)) (k : String) : Option Yaml :=
  (kvs.find? (fun kv => kv.1 = k)).map (fun kv => kv.2)

/-- Length of a Go slice: a nil slice (`none`) has length 0. -/
def sliceLen : Option (List α) → Nat
  | none => 0
  | some l => l.length

/-- Modelled from the spec: a channel value of the external
github.com/juju/systems/channel package, an opaque validated string. -/
structure Channel where
  value : String := ""
deriving DecidableEq, Repr

/-- Modelled from the spec: channel.Parse of the external
github.com/juju/systems/channel package; the channel grammar is treated as an
opaque validated non-empty string. -/
def channelParse (s : String) : Except GoError Channel :=
  if s = "" then .error ⟨"empty channel"⟩ else .ok ⟨s⟩

/-- systems.Base of the external github.com/juju/systems package: an
operating-system name plus a release channel.  Zero value: empty name, empty
channel. -/
structure Base where
  Name : String := ""
  Channel : Channel := ⟨""⟩
deriving DecidableEq, Repr

/-- The closed platform enumeration used by baseSchema (the string constants
systems.Ubuntu, systems.Windows, systems.CentOS, systems.OpenSUSE,
systems.GenericLinux, systems.OSX of the external juju/systems package). -/
def platformNames : List String :=
  ["ubuntu", "windows", "centos", "opensuse", "genericlinux", "osx"]

/-- Modelled from the spec: systems.Base.Validate of the external juju/systems
package; the platform name must be one of the known set (the channel was
already parsed by channelParse at the only call site). -/
def Base.Validate (b : Base) : Option GoError :=
  if platformNames.contains b.Name then none else some ⟨"invalid base: name"⟩

/-- Modelled from the spec: systems.Base.String of the external juju/systems
package, the canonical string form of a base (platform plus channel, e.g.
"ubuntu/stable"). -/
def Base.render (b : Base) : String :=
  if b.Channel.value = "" then b.Name else b.Name ++ "/" ++ b.Channel.value

/-- Manifest (manifest.go): the list of bases; the slice keeps Go's nil/non-nil
distinction (`none` = nil slice). -/
structure Manifest where
  Bases : Option (List Base) := none
deriving DecidableEq, Repr

/-- The coercion of one element under baseSchema (schema.FieldMap with fields
"name" and "channel", both defaulting to schema.Omit): on success the output
map holds the coerced "name" and "channel" fields exactly when they were
present in the input. -/
structure CoercedBase where
  name : Option String := none
  channel : Option String := none
deriving DecidableEq, Repr

/-- The "name" field checker of baseSchema:
schema.OneOf(Const(Ubuntu), ..., Const(OSX)) — succeeds exactly when the value
equals one of the six platform constants (each Const compares for equality), and
fails otherwise (in particular on every unknown name and on every non-string). -/
def oneOfPlatform (v : Yaml) : Except GoError String :=
  match v with
  | .str s => if platformNames.contains s then .ok s else .error ⟨"unexpected value " ++ s⟩
  | _ => .error ⟨"unexpected value"⟩

/-- The "channel" field checker of baseSchema: schema.String(), which succeeds
exactly on strings. -/
def schemaStringCoerce (v : Yaml) : Except GoError String :=
  match v with
  | .str s => .ok s
  | _ => .error ⟨"expected string"⟩

/-- baseSchema.Coerce on one list element (manifest.go baseSchema):
the element must coerce to a record with optional "name" and "channel" fields;
"name" is restricted to the closed platform enumeration, "channel" must be a
string; unknown keys are ignored by schema.FieldMap. -/
def baseSchemaCoerce (v : Yaml) : Except GoError CoercedBase :=
  match v with
  | .map kvs =>
    match yamlLookup kvs "name" with
    | some nv =>
      match oneOfPlatform nv with
      | .error e => .error e
      | .ok nameVal =>
        match yamlLookup kvs "channel" with
        | none => .ok { name := some nameVal, channel := none }
        | some cv =>
          match schemaStringCoerce cv with
          | .error e => .error e
          | .ok chVal => .ok { name := some nameVal, channel := some chVal }
    | none =>
      match yamlLookup kvs "channel" with
      | none => .ok { name := none, channel := none }
      | some cv =>
        match schemaStringCoerce cv with
        | .error e => .error e
        | .ok chVal => .ok { name := none, channel := some chVal }
  | _ => .error ⟨"expected map"⟩

/-- schema.List(baseSchema) element loop: coerce each element in order,
stopping at the first failure. -/
def coerceBaseList : List Yaml → Except GoError (List CoercedBase)
  | [] => .ok []
  | v :: rest =>
    match baseSchemaCoerce v with
    | .error e => .error e
    | .ok cb =>
      match coerceBaseList rest with
      | .error e => .error e
      | .ok cbs => .ok (cb :: cbs)

/-- schema.List(baseSchema).Coerce(raw["bases"]) as called by
Manifest.UnmarshalYAML: a nil value (absent "bases" key) is an error
("expected list, got nothing"), a non-list is an error, and a list is coerced
elementwise.  On success the output slice is always non-nil. -/
def schemaListBaseCoerce (v : Option Yaml) : Except GoError (List CoercedBase)
  :=
  match v with
  | none => .error ⟨"expected list, got nothing"⟩
  | some (.list xs) => coerceBaseList xs
  | some _ => .error ⟨"expected list, got something else"⟩

/-- The loop body of parseBases (manifest.go): build each base from the coerced
fields, parse its channel if present, validate it, and append.  The result
slice starts nil and becomes non-nil at the first append (Go append
semantics). -/
def parseBasesLoop : List CoercedBase → Option (List Base) →
    Except GoError (Option (List Base))
  | [], res => .ok res
  | v :: rest, res =>
    let base0 : Base := {}
    let base1 : Base :=
      match v.name with
      | some n => { base0 with Name := n }
      | none => base0
    match (match v.channel with
           | none => Except.ok base1
           | some ch =>
             match channelParse ch with
             | .error e =>
               Except.error (annotate ("parsing channel \"" ++ ch ++ "\"") e)
             | .ok c => Except.ok { base1 with Channel := c }) with
    | .error e => .error e
    | .ok base2 =>
      match Base.Validate base2 with
      | some e => .error e
      | none => parseBasesLoop rest (some ((res.getD []) ++ [base2]))

/-- parseBases (manifest.go): a nil input yields a nil slice with no error;
otherwise the elements are processed in order by parseBasesLoop, and a single
invalid base aborts the whole parse. -/
def parseBases (input : Option (List CoercedBase)) :
    Except GoError (Option (List Base)) :=
  match input with
  | none => .ok none
  | some xs => parseBasesLoop xs none

/-- Manifest.UnmarshalYAML (manifest.go): decode the document into a generic
map (failing on a non-map root), coerce raw["bases"] under
schema.List(baseSchema) (annotating failures with "coerce"), then run
parseBases on the coerced list.  (The source's dead `!ok` type-assertion
branch after the List coercion cannot fire: List.Coerce only returns
[]interface{}.) -/
def unmarshalManifest (root : Yaml) : Except GoError Manifest :=
  match root with
  | .map raw =>
    match schemaListBaseCoerce (yamlLookup raw "bases") with
    | .error e => .error (annotate "coerce" e)
    | .ok newV =>
      match parseBases (some newV) with
      | .error e => .error e
      | .ok bases => .ok { Bases := bases }
  | _ => .error ⟨"cannot unmarshal into map"⟩

/-- ReadManifest (manifest.go): yaml.Unmarshal into a *Manifest.  An empty or
absent document leaves the pointer nil and yaml.Unmarshal returns no error; the
subsequent `manifest == nil` guard calls errors.Annotatef on the (nil) err,
which returns nil, so the function returns a nil manifest and a nil error.  A
present document is unmarshalled via Manifest.UnmarshalYAML, with failures
annotated "manifest". -/
def ReadManifest (doc : Option Yaml) : Except GoError (Option Manifest) :=
  match doc with
  | none => .ok none
  | some root =>
    match unmarshalManifest root with
    | .error e => .error (annotate "manifest" e)
    | .ok m => .ok (some m)

/-- The charm metadata format version ({V1, V2}; format.go is not under src,
the spec gives exactly these two values). -/
inductive Format where
  | v1
  | v2
deriving DecidableEq, Repr

/-- The package-level constant FormatV1. -/
def FormatV1 : Format := Format.v1

/-- The package-level constant FormatV2. -/
def FormatV2 : Format := Format.v2

/-- CharmArchive.Format (charmarchive.go:398-403) on a non-nil manifest:
charms whose manifest specifies bases (a non-nil Bases slice) are V2, otherwise
V1. -/
def CharmArchive.Format (m : Manifest) : Format :=
  if m.Bases.isSome then FormatV2 else FormatV1

/-- CharmArchive.Format including the nil-receiver-field case: the method reads
a.manifest.Bases unconditionally, so with a nil manifest pointer it faults
(nil-pointer dereference) instead of returning a value; `none` is the
no-value/fault outcome. -/
def formatDeref : Option Manifest → Option Format
  | none => none
  | some m => some (CharmArchive.Format m)

/-- The format computed by the top-level ReadCharm gate (charm.go): FormatV2
unless len(charm.Manifest().Bases) == 0, in which case FormatV1. -/
def readCharmFormat (m : Manifest) : Format :=
  if sliceLen m.Bases = 0 then FormatV1 else FormatV2

/-- Modelled from the spec: the charm metadata document (the charm package's
Meta type and its parser are not under src); only the legacy series list is
relevant to the claims, other fields are carried through unchanged. -/
structure MetaDoc where
  Series : List String := []
deriving DecidableEq, Repr

/-- A charm value as seen through the Charm interface (charm.go): its metadata
document and its bases manifest. -/
structure CharmVal where
  Meta : MetaDoc
  Manifest : Manifest
deriving DecidableEq, Repr

/-- The error results of SeriesForCharm (charm.go): the package-level
errMissingSeries value, and unsupportedSeriesError carrying the requested
series and the full supported list. -/
inductive SeriesError where
  | errMissingSeries
  | unsupportedSeries (requestedSeries : String) (supportedSeries : List String)
deriving DecidableEq, Repr

/-- SeriesForCharm (charm.go:178-196): with no supported series the request is
required and returned verbatim; with supported series an empty request defaults
to the first entry; otherwise the request must exactly match one entry. -/
def SeriesForCharm (requestedSeries : String) (supportedSeries : List String) :
    Except SeriesError String :=
  match supportedSeries with
  | [] =>
    if requestedSeries = "" then .error .errMissingSeries
    else .ok requestedSeries
  | s0 :: _ =>
    if requestedSeries = "" then .ok s0
    else if supportedSeries.contains requestedSeries then .ok requestedSeries
    else .error (.unsupportedSeries requestedSeries supportedSeries)

/-- The accumulation loop shared by both ComputedSeries implementations: walk
the bases in order, render each to its canonical string, and append it to the
output slice unless the membership set already contains it. -/
def computedSeriesLoop : List Base → List String → List String → List String
  | [], seriesSlice, _seriesSet => seriesSlice
  | base :: rest, seriesSlice, seriesSet =>
    let series := Base.render base
    if seriesSet.contains series then
      computedSeriesLoop rest seriesSlice seriesSet
    else
      computedSeriesLoop rest (seriesSlice ++ [series]) (seriesSet ++ [series])

/-- ComputedSeries (charm.go:200-216): with zero bases return the metadata
series list; otherwise the ordered, duplicate-free rendering of the bases. -/
def ComputedSeries (c : CharmVal) : List String :=
  if sliceLen c.Manifest.Bases = 0 then c.Meta.Series
  else computedSeriesLoop (c.Manifest.Bases.getD []) [] []

/-- CharmArchive.ComputedSeries (charmarchive.go:407-423): gated on
CharmArchive.Format instead of the bases length, otherwise the same loop. -/
def CharmArchive.ComputedSeries (a : CharmVal) : List String :=
  if CharmArchive.Format a.Manifest = FormatV1 then a.Meta.Series
  else computedSeriesLoop (a.Manifest.Bases.getD []) [] []

/-- Specification-side description of the loop's result: keep the first
occurrence of every string, dropping later duplicates. -/
def firstOccur : List String → List String
  | [] => []
  | x :: xs => x :: firstOccur (xs.filter (fun y => !(y == x)))
termination_by l => l.length
decreasing_by
  simp only [List.length_cons]
  exact Nat.lt_succ_of_le (List.length_filter_le _ _)

namespace resource

/-- Modelled from the spec: the resource package's Type (a string-valued type
whose zero value is unknown/invalid; the Type definitions, ParseType and
Type.Validate are not under src).  Named ResourceType because `Type` is not a
legal Lean name. -/
structure ResourceType where
  value : String := ""
deriving DecidableEq, Repr

/-- The zero value of the resource type (`var typeUnknown Type`). -/
def typeUnknown : ResourceType := ⟨""⟩

/-- The "file" resource type. -/
def TypeFile : ResourceType := ⟨"file"⟩

/-- The "oci-image" resource type. -/
def TypeContainerImage : ResourceType := ⟨"oci-image"⟩

/-- Modelled from the spec: Type.Validate — membership in the closed resource
type enumeration {file, oci-image}; anything else is an error. -/
def ResourceType.Validate (t : ResourceType) : Option GoError :=
  if t.value = "file" ∨ t.value = "oci-image" then none
  else some ⟨"unknown resource type"⟩

/-- Modelled from the spec: ParseType — returns the type named by the string
together with an error exactly when the string fails the type enumeration. -/
def ParseType (value : String) : ResourceType × Option GoError :=
  if value = "file" ∨ value = "oci-image" then (⟨value⟩, none)
  else (⟨value⟩, some ⟨"unsupported resource type " ++ value⟩)

/-- resource.Meta: the information about a resource as stored in a charm's
metadata.  The Type field is named Type' because `Type` is not a legal Lean
field name. -/
structure Meta where
  Name : String := ""
  Type' : ResourceType := ⟨""⟩
  Path : String := ""
  Comment : String := ""
deriving DecidableEq, Repr

/-- The zero-value Meta carrying only the given name (ParseMeta's result for
nil data). -/
def zeroMeta (name : String) : Meta :=
  { Name := name }

/-- The result of ParseMeta: either a normal return (a Meta together with an
error that is nil or not), or a fault (a failed interface type assertion, which
panics rather than returning). -/
inductive ParseMetaResult where
  | ret (meta : Meta) (err : Option GoError)
  | fault
deriving DecidableEq, Repr

/-- The "comment" step of ParseMeta: `if val := rMap["comment"]; val != nil`
followed by the val.(string) assertion. -/
def parseMetaComment (meta : Meta) (rMap : List (String × Yaml)) :
    ParseMetaResult :=
  match yamlLookup rMap "comment" with
  | none => .ret meta none
  | some (.str s) => .ret { meta with Comment := s } none
  | some _ => .fault

/-- The "filename" step of ParseMeta: `if val := rMap["filename"]; val != nil`
followed by the val.(string) assertion. -/
def parseMetaFilename (meta : Meta) (rMap : List (String × Yaml)) :
    ParseMetaResult :=
  match yamlLookup rMap "filename" with
  | none => parseMetaComment meta rMap
  | some (.str s) => parseMetaComment { meta with Path := s } rMap
  | some _ => .fault

/-- The "type" step of ParseMeta: `if val := rMap["type"]; val != nil`,
the val.(string) assertion, ParseType, and the early error return (the Type
field is set to whatever ParseType returned even on error). -/
def parseMetaType (meta : Meta) (rMap : List (String × Yaml)) :
    ParseMetaResult :=
  match yamlLookup rMap "type" with
  | none => parseMetaFilename meta rMap
  | some (.str s) =>
    match ParseType s with
    | (t, some e) => .ret { meta with Type' := t } (some e)
    | (t, none) => parseMetaFilename { meta with Type' := t } rMap
  | some _ => .fault

/-- ParseMeta (resource meta.go:38-64): nil data yields the zero Meta carrying
only the name with no error; otherwise data must assert to a
map[string]interface{} (fault on anything else) and the "type", "filename" and
"comment" fields are read in that order, each via a string type assertion. -/
def ParseMeta (name : String) (data : Option Yaml) : ParseMetaResult :=
  match data with
  | none => .ret (zeroMeta name) none
  | some (.map rMap) => parseMetaType (zeroMeta name) rMap
  | some _ => .fault

/-- Meta.Validate (resource meta.go:67-94): in order — name non-empty, type
not the zero value, type enumeration membership, path non-empty, and (for file
resources only) no "/" in the path; the first failing check returns its
not-valid reason. -/
def Meta.Validate (meta : Meta) : Option String :=
  if meta.Name = "" then some "resource missing name"
  else if meta.Type' = typeUnknown then some "resource missing type"
  else
    match meta.Type'.Validate with
    | some e =>
      some ("invalid resource type " ++ meta.Type'.value ++ ": " ++ e.msg)
    | none =>
      if meta.Path = "" then some "resource missing filename"
      else if meta.Type' = TypeFile then
        if meta.Path.data.contains '/' then
          some ("filename cannot contain \"/\" (got \"" ++ meta.Path ++ "\")")
        else none
      else none

end resource

/-- An archive: the named entries of the zip container and their raw contents.
(I/O failures of the container itself are outside the embedding; entry lookup
failure is the modelled noCharmArchiveFile condition.) -/
structure Archive where
  entries : List (String × String)
deriving DecidableEq, Repr

/-- zipOpenFile (charmarchive.go:190-197): scan the container's entry headers
for the path; absent entries give the distinguishable noCharmArchiveFile
condition, modelled as `none`. -/
def zipOpenFile (ar : Archive) (path : String) : Option String :=
  (ar.entries.find? (fun fh => fh.1 = path)).map (fun fh => fh.2)

/-- Modelled from the spec: the optional config document (parser not under
src); its contents are irrelevant to the claims. -/
abbrev ConfigDoc := Unit

/-- Modelled from the spec: the optional metrics document (parser not under
src). -/
abbrev MetricsDoc := Unit

/-- Modelled from the spec: the optional actions document (parser not under
src). -/
abbrev ActionsDoc := Unit

/-- Modelled from the spec: the optional lxd-profile document (parser not
under src). -/
abbrev LXDProfileDoc := Unit

/-- NewConfig: the default empty config substituted when config.yaml is
absent. -/
def NewConfig : ConfigDoc := ()

/-- NewActions: the default empty actions substituted when actions.yaml is
absent. -/
def NewActions : ActionsDoc := ()

/-- NewLXDProfile: the default empty profile substituted when lxd-profile.yaml
is absent. -/
def NewLXDProfile : LXDProfileDoc := ()

/-- The fields of the CharmArchive value built up by readCharmArchive
(charmarchive.go:23-35); pointers are Options, with nil defaults. -/
structure CharmArchiveState where
  meta : MetaDoc
  manifest : Option Manifest := none
  config : Option ConfigDoc := none
  metrics : Option MetricsDoc := none
  actions : Option ActionsDoc := none
  lxdProfile : Option LXDProfileDoc := none
  revision : Int := 0
  version : String := ""
deriving DecidableEq, Repr

/-- The external collaborator parsers used by readCharmArchive (their
implementations are not under src; readCharmArchive only observes found/parsed
outcomes). decodeYamlRoot models yaml.Unmarshal's generic decoding of
manifest.yaml's bytes, fscanInt models fmt.Fscan of the revision number. -/
structure Collaborators where
  ReadMeta : String → Except GoError MetaDoc
  decodeYamlRoot : String → Except GoError (Option Yaml)
  ReadConfig : String → Except GoError ConfigDoc
  ReadMetrics : String → Except GoError MetricsDoc
  ReadActionsYaml : String → Except GoError ActionsDoc
  fscanInt : String → Except GoError Int
  ReadLXDProfile : String → Except GoError LXDProfileDoc
  ReadVersion : String → Except GoError String

/-- ReadManifest as invoked by readCharmArchive on an entry's raw bytes: the
generic YAML decode step happens inside yaml.Unmarshal, so its failures carry
the same "manifest" annotation. -/
def ReadManifestRaw (decode : String → Except GoError (Option Yaml))
    (content : String) : Except GoError (Option Manifest) :=
  match decode content with
  | .error e => .error (annotate "manifest" e)
  | .ok doc => ReadManifest doc

/-- The manifest block of readCharmArchive (charmarchive.go:86-98): when the
format is not V1, manifest.yaml must exist (failure annotated "opening
manifest file") and parse. -/
def manifestStep (co : Collaborators) (ar : Archive) (fmt : Format) :
    Except GoError (Option Manifest) :=
  if fmt ≠ FormatV1 then
    match zipOpenFile ar "manifest.yaml" with
    | none =>
      .error (annotate "opening manifest file" (noCharmArchiveFile "manifest.yaml"))
    | some content => ReadManifestRaw co.decodeYamlRoot content
  else .ok none

/-- The config block of readCharmArchive (charmarchive.go:100-111): a missing
config.yaml (the noCharmArchiveFile condition) substitutes the default empty
config; a present one must parse or the whole read fails. -/
def configStep (co : Collaborators) (ar : Archive) : Except GoError ConfigDoc :=
  match zipOpenFile ar "config.yaml" with
  | none => .ok NewConfig
  | some content => co.ReadConfig content

/-- The metrics block of readCharmArchive (charmarchive.go:113-122): a missing
metrics.yaml leaves the field nil; a present one must parse. -/
def metricsStep (co : Collaborators) (ar : Archive) :
    Except GoError (Option MetricsDoc) :=
  match zipOpenFile ar "metrics.yaml" with
  | none => .ok none
  | some content =>
    match co.ReadMetrics content with
    | .error e => .error e
    | .ok m => .ok (some m)

/-- getActions (charmarchive.go:179-188): a missing actions.yaml substitutes
the default empty actions; a present one must parse. -/
def getActions (co : Collaborators) (ar : Archive) :
    Except GoError ActionsDoc :=
  match zipOpenFile ar "actions.yaml" with
  | none => .ok NewActions
  | some content => co.ReadActionsYaml content

deriving instance DecidableEq for Except
deriving instance Repr for Except

/-- The outcome of the revision block together with its reader-handle
bookkeeping: whether a reader was opened for the "revision" entry and whether
any Close was issued for it before the block was left. -/
structure RevisionOutcome where
  result : Except GoError Int
  opened : Bool
  closed : Bool
deriving DecidableEq, Repr

/-- The revision block of readCharmArchive (charmarchive.go:136-146): a missing
revision entry is tolerated (revision stays 0); a present one is scanned as an
integer, any scan failure becoming "invalid revision file".  The block contains
no reader.Close() call, so on both of its exit paths the opened reader is left
open. -/
def revisionStep (fscan : String → Except GoError Int) (ar : Archive) :
    RevisionOutcome :=
  match zipOpenFile ar "revision" with
  | none => { result := .ok 0, opened := false, closed := false }
  | some content =>
    match fscan content with
    | .error _ =>
      { result := .error ⟨"invalid revision file"⟩, opened := true, closed := false }
    | .ok n => { result := .ok n, opened := true, closed := false }

/-- The lxd-profile block of readCharmArchive (charmarchive.go:148-159): a
missing lxd-profile.yaml substitutes the default profile; a present one must
parse. -/
def lxdStep (co : Collaborators) (ar : Archive) :
    Except GoError LXDProfileDoc :=
  match zipOpenFile ar "lxd-profile.yaml" with
  | none => .ok NewLXDProfile
  | some content => co.ReadLXDProfile content

/-- The version block of readCharmArchive (charmarchive.go:161-172): a missing
version entry leaves the version empty; a present one must parse. -/
def versionStep (co : Collaborators) (ar : Archive) :
    Except GoError String :=
  match zipOpenFile ar "version" with
  | none => .ok ""
  | some content => co.ReadVersion content

/-- The possible outcomes of readCharmArchive: a built archive value, an error
return, or a fault (a panic, which returns no value at all). -/
inductive ReadOutcome where
  | ok (a : CharmArchiveState)
  | err (e : GoError)
  | fault
deriving DecidableEq, Repr

/-- The remainder of readCharmArchive after the format check
(charmarchive.go:86-174), in source order: manifest, config, metrics, actions,
revision, lxd-profile, version; any error aborts the whole read. -/
def readCharmArchiveRest (co : Collaborators) (ar : Archive)
    (b : CharmArchiveState) (fmt : Format) : ReadOutcome :=
  match manifestStep co ar fmt with
  | .error e => .err e
  | .ok manifest =>
    match configStep co ar with
    | .error e => .err e
    | .ok config =>
      match metricsStep co ar with
      | .error e => .err e
      | .ok metrics =>
        match getActions co ar with
        | .error e => .err e
        | .ok actions =>
          match (revisionStep co.fscanInt ar).result with
          | .error e => .err e
          | .ok revision =>
            match lxdStep co ar with
            | .error e => .err e
            | .ok lxdProfile =>
              match versionStep co ar with
              | .error e => .err e
              | .ok version =>
                .ok { b with
                      manifest := manifest, config := some config,
                      metrics := metrics, actions := some actions,
                      lxdProfile := some lxdProfile,
                      revision := revision, version := version }

/-- readCharmArchive (charmarchive.go:67-175): metadata.yaml is required and
must parse; then `if b.Format() != FormatV1` is evaluated while b.manifest is
still nil, and CharmArchive.Format dereferences that nil pointer — the read
faults there on every archive whose metadata parses.  The remaining steps are
kept faithfully after the (never-succeeding) dereference. -/
def readCharmArchive (co : Collaborators) (ar : Archive) : ReadOutcome :=
  match zipOpenFile ar "metadata.yaml" with
  | none => .err (noCharmArchiveFile "metadata.yaml")
  | some content =>
    match co.ReadMeta content with
    | .error e => .err e
    | .ok meta =>
      let b : CharmArchiveState := { meta := meta }
      match formatDeref b.manifest with
      | none => .fault
      | some fmt => readCharmArchiveRest co ar b fmt

/-- A concrete decimal scanner standing in for fmt.Fscan of an integer:
succeeds exactly on non-empty all-digit contents. -/
def decimalScan (s : String) : Except GoError Int :=
  if s.data ≠ [] ∧ s.data.all (fun c => c.isDigit) then
    .ok (s.data.foldl (fun acc c => acc * 10 + ((c.toNat : Int) - 48)) 0)
  else .error ⟨"expected integer"⟩

/-- A concrete set of always-succeeding collaborators, for evaluating
readCharmArchive's steps at concrete archives. -/
def coOK : Collaborators :=
  { ReadMeta := fun _ => .ok { Series := [] }
  , decodeYamlRoot := fun _ => .ok none
  , ReadConfig := fun _ => .ok ()
  , ReadMetrics := fun _ => .ok ()
  , ReadActionsYaml := fun _ => .ok ()
  , fscanInt := decimalScan
  , ReadLXDProfile := fun _ => .ok ()
  , ReadVersion := fun s => .ok s }

/-- Collaborators whose config parser always fails, for evaluating the config
block on a syntactically invalid config.yaml. -/
def coBadConfig : Collaborators :=
  { coOK with ReadConfig := fun _ => .error ⟨"config parse failure"⟩ }

/-- Helper: the parseBases loop never turns a nil-or-nonempty accumulator into
a non-nil empty slice — each iteration either fails or appends. -/
theorem parseBasesLoop_result_ne_nilslice (xs : List CoercedBase) :
    ∀ res : Option (List Base), (res = none ∨ ∃ l, res = some l ∧ l ≠ []) →
      parseBasesLoop xs res ≠ .ok (some []) := by
  induction xs with
  | nil =>
    intro res hres h
    have hres' : res = some [] := by simpa [parseBasesLoop] using h
    rcases hres with h0 | ⟨l, hl, hne⟩ <;> simp_all
  | cons v rest ih =>
    intro res hres h
    simp only [parseBasesLoop] at h
    split at h
    · exact Except.noConfusion h
    · split at h
      · exact Except.noConfusion h
      · exact ih _ (Or.inr ⟨_, rfl, by simp⟩) h

/-- Helper: parseBases never produces a non-nil empty bases slice: a nil input
gives a nil slice, and a loop that completes with entries gives a non-empty
slice. -/
theorem parseBases_never_nilslice (input : Option (List CoercedBase)) :
    parseBases input ≠ .ok (some []) := by
  cases input with
  | none => simp [parseBases]
  | some xs => exact parseBasesLoop_result_ne_nilslice xs none (Or.inl rfl)

/-- Claim C1 (amended): CharmArchive.Format is V2 exactly when the manifest's
Bases slice is non-nil, while the ReadCharm gate computes V1 exactly when the
Bases slice has length zero; the two agree exactly when Bases is not a non-nil
empty slice, and parseBases never produces such a slice (so a manifest document
declaring zero bases parses to nil Bases and both derivations give V1, not
V2). -/
theorem format_gate_characterization :
    (∀ m : Manifest, CharmArchive.Format m = FormatV2 ↔ m.Bases.isSome = true)
  ∧ (∀ m : Manifest, readCharmFormat m = FormatV1 ↔ sliceLen m.Bases = 0)
  ∧ (∀ m : Manifest, CharmArchive.Format m = readCharmFormat m ↔ m.Bases ≠ some [])
  ∧ (∀ input, parseBases input ≠ .ok (some [])) := by
  refine ⟨?_, ?_, ?_, parseBases_never_nilslice⟩
  · rintro ⟨bases⟩
    cases bases <;> simp [CharmArchive.Format, FormatV1, FormatV2]
  · rintro ⟨bases⟩
    cases bases with
    | none => simp [readCharmFormat, sliceLen, FormatV1, FormatV2]
    | some l =>
      cases l <;> simp [readCharmFormat, sliceLen, FormatV1, FormatV2]
  · rintro ⟨bases⟩
    cases bases with
    | none =>
      simp [CharmArchive.Format, readCharmFormat, sliceLen, FormatV1, FormatV2]
    | some l =>
      cases l <;>
        simp [CharmArchive.Format, readCharmFormat, sliceLen, FormatV1, FormatV2]

/-- Witness for C1's amended theorem at a concrete manifest. -/
theorem format_gate_characterization_witness :
    CharmArchive.Format { Bases := some [{ Name := "ubuntu" }] } = FormatV2 :=
  (format_gate_characterization.1 _).mpr rfl

/-- Counterexample for claim C1 as stated: a manifest present with zero bases
(a non-nil empty Bases slice) is classed FormatV1, not FormatV2, by the
ReadCharm gate — the two format derivations disagree there. -/
theorem format_gate_zero_bases_counterexample :
    readCharmFormat { Bases := some [] } = FormatV1
  ∧ CharmArchive.Format { Bases := some [] } = FormatV2 :=
  ⟨rfl, rfl⟩

/-- Claim C3 (amended): an empty or absent raw document yields no manifest at
all (nil manifest pointer, nil error) rather than a manifest with nil bases; a
document present with an empty bases list yields a manifest whose Bases slice
is nil, not a non-nil empty slice (parseBases never produces one); the two
outcomes are distinguishable by whether ReadManifest returns a manifest value,
not by a nil-versus-empty bases slice. -/
theorem readManifest_nil_vs_empty :
    ReadManifest none = .ok none
  ∧ ReadManifest (some (Yaml.map [("bases", Yaml.list [])]))
      = .ok (some { Bases := none })
  ∧ (∀ root : Yaml, ReadManifest (some root) ≠ .ok none)
  ∧ (∀ input, parseBases input ≠ .ok (some [])) := by
  refine ⟨rfl, rfl, ?_, parseBases_never_nilslice⟩
  intro root h
  simp only [ReadManifest] at h
  split at h
  · exact Except.noConfusion h
  · simp at h

/-- Witness for C3's amended theorem: a present document never yields the
nil-manifest outcome. -/
theorem readManifest_nil_vs_empty_witness :
    ReadManifest (some (Yaml.str "scalar document")) ≠ Except.ok none :=
  readManifest_nil_vs_empty.2.2.1 (Yaml.str "scalar document")

/-- Counterexample for claim C3 as stated: a document present with an empty
bases list parses to a manifest whose bases slice is nil, not the non-nil
empty slice the claim describes, while an empty document yields no manifest
value at all. -/
theorem readManifest_empty_bases_counterexample :
    ReadManifest (some (Yaml.map [("bases", Yaml.list [])]))
      = .ok (some { Bases := none })
  ∧ ReadManifest none = .ok none
  ∧ ({ Bases := none } : Manifest) ≠ { Bases := some [] } :=
  ⟨rfl, rfl, by simp⟩

/-- Claim C4: SeriesForCharm — empty supported list: an empty request fails
with the missing-series error and a non-empty request is returned verbatim;
non-empty supported list: an empty request defaults to the first entry, a
request matching some entry is returned, and a request matching no entry fails
with the unsupported-series error carrying the request and the full supported
list. -/
theorem seriesForCharm_cases :
    (∀ req : String, req = "" →
       SeriesForCharm req [] = .error SeriesError.errMissingSeries)
  ∧ (∀ req : String, req ≠ "" → SeriesForCharm req [] = .ok req)
  ∧ (∀ (req s : String) (rest : List String), req = "" →
       SeriesForCharm req (s :: rest) = .ok s)
  ∧ (∀ (req : String) (sup : List String), req ≠ "" → sup ≠ [] →
       sup.contains req = true → SeriesForCharm req sup = .ok req)
  ∧ (∀ (req : String) (sup : List String), req ≠ "" → sup ≠ [] →
       sup.contains req = false →
       SeriesForCharm req sup = .error (.unsupportedSeries req sup)) := by
  refine ⟨?_, ?_, ?_, ?_, ?_⟩
  · intro req hreq; subst hreq; simp [SeriesForCharm]
  · intro req hreq; simp [SeriesForCharm, hreq]
  · intro req s rest hreq; subst hreq; simp [SeriesForCharm]
  · intro req sup hreq hsup hc
    cases sup with
    | nil => exact absurd rfl hsup
    | cons s0 rest =>
      have hm : req ∈ s0 :: rest := by simpa using hc
      simp only [SeriesForCharm, hreq, if_neg hreq, hc, if_pos]
      simp
  · intro req sup hreq hsup hc
    cases sup with
    | nil => exact absurd rfl hsup
    | cons s0 rest =>
      simp only [SeriesForCharm, if_neg hreq, hc]
      simp

/-- Witness for C4 at the spec's four concrete resolution examples. -/
theorem seriesForCharm_cases_witness :
    SeriesForCharm "" [] = .error SeriesError.errMissingSeries
  ∧ SeriesForCharm "bionic" [] = .ok "bionic"
  ∧ SeriesForCharm "" ["bionic", "focal"] = .ok "bionic"
  ∧ SeriesForCharm "focal" ["bionic"]
      = .error (.unsupportedSeries "focal" ["bionic"]) :=
  ⟨seriesForCharm_cases.1 "" rfl,
   seriesForCharm_cases.2.1 "bionic" (by decide),
   seriesForCharm_cases.2.2.1 "" "bionic" ["focal"] rfl,
   seriesForCharm_cases.2.2.2.2 "focal" ["bionic"] (by decide) (by decide)
     (by decide)⟩

/-- Claim C2: CharmArchive.Format reads a.manifest.Bases unconditionally, so
it produces a value exactly when the manifest field is non-nil; and
readCharmArchive invokes it while the manifest field is still nil — for every
archive whose metadata.yaml is found and parses, the read reaches the
nil-manifest case of Format and faults. -/
theorem format_nil_deref_on_read :
    (∀ om : Option Manifest, (formatDeref om).isSome = om.isSome)
  ∧ (∀ (co : Collaborators) (ar : Archive) (content : String) (meta : MetaDoc),
       zipOpenFile ar "metadata.yaml" = some content →
       co.ReadMeta content = .ok meta →
       readCharmArchive co ar = .fault) := by
  constructor
  · intro om; cases om <;> rfl
  · intro co ar content meta hfind hmeta
    simp [readCharmArchive, hfind, hmeta, formatDeref]

/-- Witness for C2 at a concrete archive and concrete collaborators. -/
theorem format_nil_deref_on_read_witness :
    readCharmArchive coOK (Archive.mk [("metadata.yaml", "name: dummy")])
      = .fault :=
  format_nil_deref_on_read.2 coOK (Archive.mk [("metadata.yaml", "name: dummy")])
    "name: dummy" { Series := [] } rfl rfl

/-- Claim C8 (code bug): the config block itself behaves as the claim states —
for every archive whose config.yaml lookup yields the not-found condition it
substitutes the default empty config, and for every archive whose config.yaml
is present but fails to parse it fails the read with that error — but the
block is unreachable: every read whose metadata.yaml is found and parses
faults at the nil-manifest format check before the config step, so no read
ever continues with a default config as the claim requires (shown both in
general and at the concrete failing input, an archive containing only a valid
metadata.yaml). -/
theorem config_optionality_unreachable :
    (∀ (co : Collaborators) (ar : Archive) (content : String) (meta : MetaDoc),
       zipOpenFile ar "metadata.yaml" = some content →
       co.ReadMeta content = .ok meta →
       readCharmArchive co ar = .fault)
  ∧ (∀ (co : Collaborators) (ar : Archive),
       zipOpenFile ar "config.yaml" = none →
       configStep co ar = .ok NewConfig)
  ∧ (∀ (co : Collaborators) (ar : Archive) (content : String) (e : GoError),
       zipOpenFile ar "config.yaml" = some content →
       co.ReadConfig content = .error e →
       configStep co ar = .error e)
  ∧ readCharmArchive coOK (Archive.mk [("metadata.yaml", "name: dummy")])
      = .fault
  ∧ configStep coOK (Archive.mk [("metadata.yaml", "name: dummy")])
      = .ok NewConfig
  ∧ configStep coBadConfig
      (Archive.mk [("metadata.yaml", "name: dummy"), ("config.yaml", "bad yaml")])
      = .error ⟨"config parse failure"⟩ := by
  refine ⟨?_, ?_, ?_, rfl, rfl, rfl⟩
  · intro co ar content meta hfind hmeta
    simp [readCharmArchive, hfind, hmeta, formatDeref]
  · intro co ar hfind
    simp [configStep, hfind]
  · intro co ar content e hfind hcfg
    simp [configStep, hfind, hcfg]

/-- Witness for C8's general conjuncts at a concrete archive. -/
theorem config_optionality_unreachable_witness :
    configStep coOK (Archive.mk [("metadata.yaml", "name: dummy")])
      = .ok NewConfig :=
  config_optionality_unreachable.2.1 coOK
    (Archive.mk [("metadata.yaml", "name: dummy")]) rfl

/-- Claim C9 (code bug): the revision block of readCharmArchive opens a reader
for the "revision" entry and leaves it open on both of its exit paths — the
successful-scan path and the invalid-revision error path — violating the
close-on-every-exit-path discipline the claim states; only the not-found path
opens no reader. -/
theorem revision_reader_never_closed :
    revisionStep coOK.fscanInt (Archive.mk [("revision", "5")])
      = { result := .ok 5, opened := true, closed := false }
  ∧ revisionStep coOK.fscanInt (Archive.mk [("revision", "not a number")])
      = { result := .error ⟨"invalid revision file"⟩, opened := true,
          closed := false }
  ∧ revisionStep coOK.fscanInt (Archive.mk [])
      = { result := .ok 0, opened := false, closed := false } :=
  ⟨rfl, rfl, rfl⟩

/-- Helper: an element whose "name" value is not one of the six platform
constants fails the baseSchema coercion (the OneOf of Consts rejects unknown
strings and non-strings alike), whatever its other fields hold. -/
theorem baseSchemaCoerce_bad_name (bm : List (String × Yaml)) (nv : Yaml)
    (hname : yamlLookup bm "name" = some nv)
    (hbad : ∀ s, nv = Yaml.str s → platformNames.contains s = false) :
    ∃ e, baseSchemaCoerce (Yaml.map bm) = .error e := by
  obtain ⟨e, he⟩ : ∃ e, oneOfPlatform nv = .error e := by
    cases nv with
    | str s =>
      have hns : s ∉ platformNames := by simpa using hbad s rfl
      exact ⟨⟨"unexpected value " ++ s⟩, by simp [oneOfPlatform, hns]⟩
    | int n => exact ⟨_, rfl⟩
    | bool b => exact ⟨_, rfl⟩
    | list xs => exact ⟨_, rfl⟩
    | map kvs => exact ⟨_, rfl⟩
  exact ⟨e, by simp [baseSchemaCoerce, hname, he]⟩

/-- Helper: if any element of the list fails baseSchema coercion, the whole
schema.List coercion fails (it stops at the first failing element). -/
theorem coerceBaseList_mem_error (xs : List Yaml) (x : Yaml) (hx : x ∈ xs)
    (e : GoError) (he : baseSchemaCoerce x = .error e) :
    ∃ e2, coerceBaseList xs = .error e2 := by
  induction xs with
  | nil => cases hx
  | cons y rest ih =>
    rcases List.mem_cons.mp hx with h1 | h2
    · subst h1
      exact ⟨e, by simp [coerceBaseList, he]⟩
    · cases hy : baseSchemaCoerce y with
      | error e2 => exact ⟨e2, by simp [coerceBaseList, hy]⟩
      | ok cb =>
        obtain ⟨e3, h3⟩ := ih h2
        exact ⟨e3, by simp [coerceBaseList, hy, h3]⟩

/-- Claim C7: a manifest document whose bases list contains an element whose
"name" is not in the closed platform enumeration always fails to parse,
regardless of the element's other fields and of the other bases; no partial
manifest is produced (the result is an error, not a manifest). -/
theorem manifest_unknown_platform_rejected
    (kvs : List (String × Yaml)) (xs : List Yaml)
    (bm : List (String × Yaml)) (nv : Yaml)
    (hbases : yamlLookup kvs "bases" = some (Yaml.list xs))
    (hmem : Yaml.map bm ∈ xs)
    (hname : yamlLookup bm "name" = some nv)
    (hbad : ∀ s, nv = Yaml.str s → platformNames.contains s = false) :
    ∃ e, ReadManifest (some (Yaml.map kvs)) = .error e := by
  obtain ⟨e1, he1⟩ := baseSchemaCoerce_bad_name bm nv hname hbad
  obtain ⟨e2, he2⟩ := coerceBaseList_mem_error xs _ hmem e1 he1
  refine ⟨annotate "manifest" (annotate "coerce" e2), ?_⟩
  simp [ReadManifest, unmarshalManifest, schemaListBaseCoerce, hbases, he2]

/-- Witness for C7: a manifest declaring a base named "debian" (with a valid
channel and sitting beside a valid ubuntu base) fails to parse. -/
theorem manifest_unknown_platform_rejected_witness :
    ∃ e, ReadManifest (some (Yaml.map
      [("bases", Yaml.list
        [Yaml.map [("name", Yaml.str "ubuntu"), ("channel", Yaml.str "stable")],
         Yaml.map [("name", Yaml.str "debian"),
                   ("channel", Yaml.str "stable")]])]))
      = .error e :=
  manifest_unknown_platform_rejected
    [("bases", Yaml.list
      [Yaml.map [("name", Yaml.str "ubuntu"), ("channel", Yaml.str "stable")],
       Yaml.map [("name", Yaml.str "debian"), ("channel", Yaml.str "stable")]])]
    [Yaml.map [("name", Yaml.str "ubuntu"), ("channel", Yaml.str "stable")],
     Yaml.map [("name", Yaml.str "debian"), ("channel", Yaml.str "stable")]]
    [("name", Yaml.str "debian"), ("channel", Yaml.str "stable")]
    (Yaml.str "debian")
    rfl (by simp) rfl (fun s hs => by cases hs; rfl)

/-- Helper: membership in a singleton string list as a boolean equality. -/
theorem contains_singleton (s y : String) : [s].contains y = (y == s) := by
  cases hy : y == s <;> simp [List.contains, List.elem, hy]

/-- Helper: List.contains distributes over append (boolean or). -/
theorem strList_contains_append (l1 l2 : List String) (a : String) :
    (l1 ++ l2).contains a = (l1.contains a || l2.contains a) := by
  induction l1 with
  | nil => simp
  | cons x xs ih => simp [ih, Bool.or_assoc]

/-- Helper: not-in-the-extended-set is not-equal-and-not-in-the-set, as filter
predicates. -/
theorem notContains_append_pred (acc : List String) (s : String) :
    (fun y : String => !((acc ++ [s]).contains y))
      = (fun y => (!(y == s)) && (!(acc.contains y))) := by
  funext y
  rw [strList_contains_append, contains_singleton]
  cases hy : y == s <;> cases hz : acc.contains y <;> simp [hy, hz]

/-- Helper: firstOccur only keeps strings of its input. -/
theorem mem_firstOccur (a : String) (l : List String) :
    a ∈ firstOccur l → a ∈ l := by
  induction l using firstOccur.induct with
  | case1 => simp [firstOccur]
  | case2 x xs ih =>
    intro h
    rw [firstOccur] at h
    rcases List.mem_cons.mp h with h1 | h2
    · simp [h1]
    · have hmem := ih h2
      have hf := List.mem_filter.mp hmem
      simp [hf.1]

/-- Helper: firstOccur's result has no duplicates. -/
theorem firstOccur_nodup (l : List String) : (firstOccur l).Nodup := by
  induction l using firstOccur.induct with
  | case1 => simp [firstOccur]
  | case2 x xs ih =>
    rw [firstOccur]
    refine List.nodup_cons.mpr ⟨?_, ih⟩
    intro hx
    have hf := List.mem_filter.mp (mem_firstOccur _ _ hx)
    simp at hf

/-- Helper: the source's slice-plus-membership-set loop computes exactly the
keep-first-occurrence function of the rendered sequence, relative to an
already-seen accumulator. -/
theorem computedSeriesLoop_eq (bs : List Base) (acc : List String) :
    computedSeriesLoop bs acc acc
      = acc ++ firstOccur ((bs.map Base.render).filter
          (fun s => !(acc.contains s))) := by
  induction bs generalizing acc with
  | nil => simp [computedSeriesLoop, firstOccur]
  | cons b rest ih =>
    rw [computedSeriesLoop]
    simp only [List.map_cons, List.filter_cons]
    cases hc : acc.contains (Base.render b) with
    | true =>
      simp only [hc, Bool.not_true, Bool.false_eq_true, if_false, if_true]
      exact ih acc
    | false =>
      simp only [hc, Bool.not_false, Bool.false_eq_true, if_false, if_true]
      rw [ih (acc ++ [Base.render b]), notContains_append_pred,
        ← List.filter_filter, firstOccur]
      simp

/-- Claim C5: for a V1 charm both ComputedSeries implementations return the
metadata series list verbatim (each under its own format gate); for a V2 charm
both iterate the manifest's bases in declaration order, render each to its
canonical string, and return exactly the first-occurrence-order,
duplicate-free sequence of those strings; on bases
[ubuntu/stable, centos/edge, ubuntu/stable] the result is
[ubuntu/stable, centos/edge]. -/
theorem computedSeries_first_occurrence :
    (∀ c : CharmVal, readCharmFormat c.Manifest = FormatV1 →
       ComputedSeries c = c.Meta.Series)
  ∧ (∀ c : CharmVal, readCharmFormat c.Manifest = FormatV2 →
       ComputedSeries c
         = firstOccur ((c.Manifest.Bases.getD []).map Base.render)
       ∧ (ComputedSeries c).Nodup)
  ∧ (∀ c : CharmVal, CharmArchive.Format c.Manifest = FormatV1 →
       CharmArchive.ComputedSeries c = c.Meta.Series)
  ∧ (∀ c : CharmVal, CharmArchive.Format c.Manifest = FormatV2 →
       CharmArchive.ComputedSeries c
         = firstOccur ((c.Manifest.Bases.getD []).map Base.render)
       ∧ (CharmArchive.ComputedSeries c).Nodup)
  ∧ ComputedSeries
      { Meta := { Series := [] },
        Manifest := { Bases := some [
          { Name := "ubuntu", Channel := ⟨"stable"⟩ },
          { Name := "centos", Channel := ⟨"edge"⟩ },
          { Name := "ubuntu", Channel := ⟨"stable"⟩ }] } }
      = ["ubuntu/stable", "centos/edge"] := by
  have hv2 : ∀ m : Manifest, readCharmFormat m = FormatV2 →
      sliceLen m.Bases ≠ 0 := by
    intro m h hs
    simp [readCharmFormat, hs, FormatV1, FormatV2] at h
  have hloop : ∀ bs : List Base,
      computedSeriesLoop bs [] [] = firstOccur (bs.map Base.render) := by
    intro bs
    have h := computedSeriesLoop_eq bs []
    simpa using h
  refine ⟨?_, ?_, ?_, ?_, ?_⟩
  · intro c h
    by_cases hs : sliceLen c.Manifest.Bases = 0
    · simp [ComputedSeries, hs]
    · simp [readCharmFormat, hs, FormatV1, FormatV2] at h
  · intro c h
    have hs := hv2 _ h
    constructor
    · simp only [ComputedSeries, if_neg hs]
      exact hloop _
    · simp only [ComputedSeries, if_neg hs, hloop]
      exact firstOccur_nodup _
  · intro c h
    simp [CharmArchive.ComputedSeries, h]
  · intro c h
    have hne : ¬ CharmArchive.Format c.Manifest = FormatV1 := by
      rw [h]; decide
    constructor
    · simp only [CharmArchive.ComputedSeries, if_neg hne]
      exact hloop _
    · simp only [CharmArchive.ComputedSeries, if_neg hne, hloop]
      exact firstOccur_nodup _
  · rfl

/-- Witness for C5 at the spec's concrete V2 example. -/
theorem computedSeries_first_occurrence_witness :
    ComputedSeries
      { Meta := { Series := [] },
        Manifest := { Bases := some [
          { Name := "ubuntu", Channel := ⟨"stable"⟩ },
          { Name := "centos", Channel := ⟨"edge"⟩ },
          { Name := "ubuntu", Channel := ⟨"stable"⟩ }] } }
      = firstOccur (((Manifest.mk (some [
          { Name := "ubuntu", Channel := ⟨"stable"⟩ },
          { Name := "centos", Channel := ⟨"edge"⟩ },
          { Name := "ubuntu", Channel := ⟨"stable"⟩ }])).Bases.getD []).map
          Base.render) :=
  (computedSeries_first_occurrence.2.1
    { Meta := { Series := [] },
      Manifest := { Bases := some [
        { Name := "ubuntu", Channel := ⟨"stable"⟩ },
        { Name := "centos", Channel := ⟨"edge"⟩ },
        { Name := "ubuntu", Channel := ⟨"stable"⟩ }] } } rfl).1

/-- Helper: two strings with different leading characters are different. -/
theorem string_ne_of_head (s t : String) (h : s.data.head? ≠ t.data.head?) :
    s ≠ t :=
  fun he => h (congrArg (fun x => x.data.head?) he)

/-- Claim C6: resource.Meta.Validate checks, in order, name non-empty, type
not the zero value, type enumeration membership, path non-empty, and (for file
type only) no "/" in the path; the first failing check determines the result
(short-circuit) and the five possible not-valid reasons are pairwise distinct;
the spec's three examples behave as stated. -/
theorem resource_meta_validate_spec :
    (∀ m : resource.Meta, m.Name = "" →
       resource.Meta.Validate m = some "resource missing name")
  ∧ (∀ m : resource.Meta, m.Name ≠ "" → m.Type' = resource.typeUnknown →
       resource.Meta.Validate m = some "resource missing type")
  ∧ (∀ m : resource.Meta, m.Name ≠ "" → m.Type' ≠ resource.typeUnknown →
       ∀ e, resource.ResourceType.Validate m.Type' = some e →
       resource.Meta.Validate m
         = some ("invalid resource type " ++ m.Type'.value ++ ": " ++ e.msg))
  ∧ (∀ m : resource.Meta, m.Name ≠ "" → m.Type' ≠ resource.typeUnknown →
       resource.ResourceType.Validate m.Type' = none → m.Path = "" →
       resource.Meta.Validate m = some "resource missing filename")
  ∧ (∀ m : resource.Meta, m.Name ≠ "" → m.Path ≠ "" →
       m.Type' = resource.TypeFile → m.Path.data.contains '/' = true →
       resource.Meta.Validate m
         = some ("filename cannot contain \"/\" (got \"" ++ m.Path ++ "\")"))
  ∧ (∀ m : resource.Meta, m.Name ≠ "" → m.Path ≠ "" →
       m.Type' = resource.TypeFile → m.Path.data.contains '/' = false →
       resource.Meta.Validate m = none)
  ∧ (∀ v p : String,
       "resource missing name" ≠ "resource missing type"
     ∧ "resource missing name"
         ≠ "invalid resource type " ++ v ++ ": unknown resource type"
     ∧ "resource missing name" ≠ "resource missing filename"
     ∧ "resource missing name"
         ≠ "filename cannot contain \"/\" (got \"" ++ p ++ "\")"
     ∧ "resource missing type"
         ≠ "invalid resource type " ++ v ++ ": unknown resource type"
     ∧ "resource missing type" ≠ "resource missing filename"
     ∧ "resource missing type"
         ≠ "filename cannot contain \"/\" (got \"" ++ p ++ "\")"
     ∧ "invalid resource type " ++ v ++ ": unknown resource type"
         ≠ "resource missing filename"
     ∧ "invalid resource type " ++ v ++ ": unknown resource type"
         ≠ "filename cannot contain \"/\" (got \"" ++ p ++ "\")"
     ∧ "resource missing filename"
         ≠ "filename cannot contain \"/\" (got \"" ++ p ++ "\")")
  ∧ resource.Meta.Validate
      { Name := "", Type' := resource.TypeFile, Path := "x" }
      = some "resource missing name"
  ∧ resource.Meta.Validate
      { Name := "x", Type' := resource.TypeFile, Path := "a/b" }
      = some "filename cannot contain \"/\" (got \"a/b\")"
  ∧ resource.Meta.Validate
      { Name := "x", Type' := resource.TypeFile, Path := "a" } = none := by
  refine ⟨?_, ?_, ?_, ?_, ?_, ?_, ?_, rfl, rfl, rfl⟩
  · intro m h
    simp [resource.Meta.Validate, h]
  · intro m h1 h2
    simp [resource.Meta.Validate, h1, h2]
  · intro m h1 h2 e he
    simp [resource.Meta.Validate, h1, h2, he]
  · intro m h1 h2 h3 h4
    simp [resource.Meta.Validate, h1, h2, h3, h4]
  · intro m h1 h4 h5 h6
    have h6m : '/' ∈ m.Path.data := by simpa using h6
    simp [resource.Meta.Validate, resource.ResourceType.Validate,
      resource.TypeFile, resource.typeUnknown, h1, h4, h5, h6m]
  · intro m h1 h4 h5 h6
    have h6m : '/' ∉ m.Path.data := by simpa using h6
    simp [resource.Meta.Validate, resource.ResourceType.Validate,
      resource.TypeFile, resource.typeUnknown, h1, h4, h5, h6m]
  · intro v p
    refine ⟨by decide,
      string_ne_of_head _ _
        (by show (some 'r' : Option Char) ≠ some 'i'; decide),
      by decide,
      string_ne_of_head _ _
        (by show (some 'r' : Option Char) ≠ some 'f'; decide),
      string_ne_of_head _ _
        (by show (some 'r' : Option Char) ≠ some 'i'; decide),
      by decide,
      string_ne_of_head _ _
        (by show (some 'r' : Option Char) ≠ some 'f'; decide),
      string_ne_of_head _ _
        (by show (some 'i' : Option Char) ≠ some 'r'; decide),
      string_ne_of_head _ _
        (by show (some 'i' : Option Char) ≠ some 'f'; decide),
      string_ne_of_head _ _
        (by show (some 'r' : Option Char) ≠ some 'f'; decide)⟩

/-- Witness for C6 at the spec's first example via the name check. -/
theorem resource_meta_validate_spec_witness :
    resource.Meta.Validate
      { Name := "", Type' := resource.TypeFile, Path := "x" }
      = some "resource missing name" :=
  resource_meta_validate_spec.1
    { Name := "", Type' := resource.TypeFile, Path := "x" } rfl

/-- Helper: the comment step never returns a non-nil error — it either faults
on a non-string or returns with a nil error. -/
theorem parseMetaComment_no_error (meta : resource.Meta)
    (rMap : List (String × Yaml)) (m : resource.Meta) (e : GoError) :
    resource.parseMetaComment meta rMap ≠ .ret m (some e) := by
  unfold resource.parseMetaComment
  split <;> simp

/-- Helper: the filename step never returns a non-nil error — it either faults
on a non-string or continues to the comment step. -/
theorem parseMetaFilename_no_error (meta : resource.Meta)
    (rMap : List (String × Yaml)) (m : resource.Meta) (e : GoError) :
    resource.parseMetaFilename meta rMap ≠ .ret m (some e) := by
  unfold resource.parseMetaFilename
  split
  · exact parseMetaComment_no_error _ _ _ _
  · exact parseMetaComment_no_error _ _ _ _
  · simp

/-- Claim C10 (amended): ParseMeta returns the zero Meta with no error on nil
data; it faults on non-map data, on a non-string "type" value, on a non-string
"filename" value when that key is reached, and on a non-string "comment" value
when that key is reached — but the fields are examined in the order type,
filename, comment, and a type-enumeration failure returns early with that
error before the later keys are examined; an error value is returned only when
the "type" field fails the type enumeration. -/
theorem parseMeta_shape_spec :
    (∀ name, resource.ParseMeta name none
       = .ret (resource.zeroMeta name) none)
  ∧ (∀ name (v : Yaml), (∀ kvs, v ≠ Yaml.map kvs) →
       resource.ParseMeta name (some v) = .fault)
  ∧ (∀ name rMap nv, yamlLookup rMap "type" = some nv →
       (∀ s, nv ≠ Yaml.str s) →
       resource.ParseMeta name (some (Yaml.map rMap)) = .fault)
  ∧ (∀ name rMap s fv, yamlLookup rMap "type" = some (Yaml.str s) →
       (resource.ParseType s).2 = none →
       yamlLookup rMap "filename" = some fv → (∀ t, fv ≠ Yaml.str t) →
       resource.ParseMeta name (some (Yaml.map rMap)) = .fault)
  ∧ (∀ name rMap fv, yamlLookup rMap "type" = none →
       yamlLookup rMap "filename" = some fv → (∀ t, fv ≠ Yaml.str t) →
       resource.ParseMeta name (some (Yaml.map rMap)) = .fault)
  ∧ (∀ name rMap cv,
       (yamlLookup rMap "type" = none
         ∨ ∃ s, yamlLookup rMap "type" = some (Yaml.str s)
             ∧ (resource.ParseType s).2 = none) →
       (yamlLookup rMap "filename" = none
         ∨ ∃ u, yamlLookup rMap "filename" = some (Yaml.str u)) →
       yamlLookup rMap "comment" = some cv → (∀ t, cv ≠ Yaml.str t) →
       resource.ParseMeta name (some (Yaml.map rMap)) = .fault)
  ∧ (∀ name data m e, resource.ParseMeta name data = .ret m (some e) →
       ∃ rMap s, data = some (Yaml.map rMap)
         ∧ yamlLookup rMap "type" = some (Yaml.str s)
         ∧ (resource.ParseType s).2 = some e) := by
  refine ⟨fun name => rfl, ?_, ?_, ?_, ?_, ?_, ?_⟩
  · intro name v hv
    cases v with
    | map kvs => exact absurd rfl (hv kvs)
    | str s => rfl
    | int n => rfl
    | bool b => rfl
    | list xs => rfl
  · intro name rMap nv hl hnv
    cases nv with
    | str s => exact absurd rfl (hnv s)
    | int n => simp [resource.ParseMeta, resource.parseMetaType, hl]
    | bool b => simp [resource.ParseMeta, resource.parseMetaType, hl]
    | list xs => simp [resource.ParseMeta, resource.parseMetaType, hl]
    | map kvs => simp [resource.ParseMeta, resource.parseMetaType, hl]
  · intro name rMap s fv hlt hpt hlf hfv
    cases hps : resource.ParseType s with
    | mk t esnd =>
      have hes : esnd = none := by rw [hps] at hpt; exact hpt
      subst hes
      cases fv with
      | str u => exact absurd rfl (hfv u)
      | int n =>
        simp [resource.ParseMeta, resource.parseMetaType, hlt, hps,
          resource.parseMetaFilename, hlf]
      | bool b =>
        simp [resource.ParseMeta, resource.parseMetaType, hlt, hps,
          resource.parseMetaFilename, hlf]
      | list xs =>
        simp [resource.ParseMeta, resource.parseMetaType, hlt, hps,
          resource.parseMetaFilename, hlf]
      | map kvs =>
        simp [resource.ParseMeta, resource.parseMetaType, hlt, hps,
          resource.parseMetaFilename, hlf]
  · intro name rMap fv hlt hlf hfv
    cases fv with
    | str u => exact absurd rfl (hfv u)
    | int n =>
      simp [resource.ParseMeta, resource.parseMetaType, hlt,
        resource.parseMetaFilename, hlf]
    | bool b =>
      simp [resource.ParseMeta, resource.parseMetaType, hlt,
        resource.parseMetaFilename, hlf]
    | list xs =>
      simp [resource.ParseMeta, resource.parseMetaType, hlt,
        resource.parseMetaFilename, hlf]
    | map kvs =>
      simp [resource.ParseMeta, resource.parseMetaType, hlt,
        resource.parseMetaFilename, hlf]
  · intro name rMap cv htype hfile hcomment hcv
    have hfault : ∀ meta : resource.Meta,
        resource.parseMetaComment meta rMap = .fault := by
      intro meta
      cases cv with
      | str t => exact absurd rfl (hcv t)
      | int n => simp [resource.parseMetaComment, hcomment]
      | bool b => simp [resource.parseMetaComment, hcomment]
      | list xs => simp [resource.parseMetaComment, hcomment]
      | map kvs => simp [resource.parseMetaComment, hcomment]
    have hfile2 : ∀ meta : resource.Meta,
        resource.parseMetaFilename meta rMap = .fault := by
      intro meta
      rcases hfile with hlf | ⟨u, hlf⟩
      · simp [resource.parseMetaFilename, hlf, hfault]
      · simp [resource.parseMetaFilename, hlf, hfault]
    rcases htype with hlt | ⟨s, hlt, hpt⟩
    · simp [resource.ParseMeta, resource.parseMetaType, hlt, hfile2]
    · cases hps : resource.ParseType s with
      | mk t esnd =>
        have hes : esnd = none := by rw [hps] at hpt; exact hpt
        subst hes
        simp [resource.ParseMeta, resource.parseMetaType, hlt, hps, hfile2]
  · intro name data m e h
    cases data with
    | none => simp [resource.ParseMeta] at h
    | some v =>
      cases v with
      | str s => simp [resource.ParseMeta] at h
      | int n => simp [resource.ParseMeta] at h
      | bool b => simp [resource.ParseMeta] at h
      | list xs => simp [resource.ParseMeta] at h
      | map rMap =>
        simp only [resource.ParseMeta, resource.parseMetaType] at h
        cases hlt : yamlLookup rMap "type" with
        | none =>
          rw [hlt] at h
          exact absurd h (parseMetaFilename_no_error _ _ _ _)
        | some nv =>
          rw [hlt] at h
          cases nv with
          | str s =>
            cases hps : resource.ParseType s with
            | mk t esnd =>
              simp only [hps] at h
              cases esnd with
              | none =>
                exact absurd h (parseMetaFilename_no_error _ _ _ _)
              | some e2 =>
                simp at h
                exact ⟨rMap, s, rfl, hlt, by rw [hps, h.2]⟩
          | int n => simp at h
          | bool b => simp at h
          | list xs => simp at h
          | map kvs => simp at h

/-- Witness for C10's amended theorem: non-map data faults. -/
theorem parseMeta_shape_spec_witness :
    resource.ParseMeta "res" (some (Yaml.int 3))
      = resource.ParseMetaResult.fault :=
  parseMeta_shape_spec.2.1 "res" (Yaml.int 3) (fun _ h => Yaml.noConfusion h)

/-- Counterexample for claim C10 as stated: data that is a map holding a
non-string "filename" value does not fault when the "type" field fails the
enumeration first — ParseMeta returns normally with the ParseType error, never
examining the malformed "filename". -/
theorem parseMeta_type_error_before_filename_assert :
    resource.ParseMeta "r"
      (some (Yaml.map [("type", Yaml.str "bogus"), ("filename", Yaml.int 7)]))
      = .ret { Name := "r", Type' := ⟨"bogus"⟩, Path := "", Comment := "" }
          (some ⟨"unsupported resource type bogus"⟩)
  ∧ resource.ParseMeta "r"
      (some (Yaml.map [("type", Yaml.str "bogus"), ("filename", Yaml.int 7)]))
      ≠ resource.ParseMetaResult.fault :=
  ⟨rfl, by decide⟩
